import Mathlib

/-!
# Meow hash: example program, smhasher adapters and benchmark

A shallow embedding of `meow_example.cpp`, `utils/meow_smhasher.cpp` and
`utils/meow_bench.c`, and the properties of them that the specification states.
The hashing kernels themselves are defined in `meow_hash.h`; they are not
embedded here, and wherever a kernel is called its digest is a parameter.
-/

set_option autoImplicit false

namespace Meow

/-! ## CPU dispatcher (`meow_example.cpp`, lines 63-97) -/

/-- The three kernels a `meow_hash_implementation *` can point to. -/
inductive Kernel where
  | MeowHash1
  | MeowHash2
  | MeowHash4
  deriving DecidableEq, Repr

/-- Lane width, in bits, of a kernel: `meow_smhasher.cpp` names `MeowHash1` the
128-bit wide, `MeowHash2` the 256-bit wide and `MeowHash4` the 512-bit wide
implementation. -/
def Kernel.width : Kernel → Int
  | .MeowHash1 => 128
  | .MeowHash2 => 256
  | .MeowHash4 => 512

/-- Build configuration. `MEOW_HASH_AVX512` is the value of the preprocessor
symbol. `catch_intercepts_faults` says whether the compiler delivers a hardware
fault to `catch(...)`: it does with asynchronous exception handling (MSVC `/EHa`);
with gcc or clang the fault is the signal SIGILL, which `catch(...)` never sees, and
the program has no other handler. -/
structure Build where
  MEOW_HASH_AVX512 : Bool
  catch_intercepts_faults : Bool
  deriving DecidableEq, Repr

/-- What executing each wide kernel does on the machine at hand: `true` when the
call raises an unsupported-instruction fault, `false` when it runs to completion. -/
structure Hardware where
  MeowHash4_faults : Bool
  MeowHash2_faults : Bool
  deriving DecidableEq, Repr

/-- The fault a kernel raises on a CPU that lacks its instructions. -/
inductive Fault where
  | illegalInstruction
  deriving DecidableEq, Repr

/-- Ghost record of what the process did to its kernels: a kernel was executed
(and ran to completion or not), or a kernel was stored into `MeowHash`. -/
inductive Event where
  | probed (k : Kernel) (completed : Bool)
  | installed (k : Kernel)
  deriving DecidableEq, Repr

/-- Process state: the global `MeowHash` and the ghost record of events so far. -/
structure Process where
  MeowHash : Kernel
  trace : List Event
  deriving DecidableEq, Repr

/-- The state at program start: `static meow_hash_implementation *MeowHash = MeowHash1;`
and nothing recorded yet. -/
def Process.initial : Process :=
  { MeowHash := Kernel.MeowHash1, trace := [] }

/-- Code that may update the process state and may raise a fault. The state
outlives a fault, as it does in C++; a fault that is never intercepted ends the
process. -/
abbrev Run := ExceptT Fault (StateM Process)

/-- Does kernel `k` fault on hardware `hw`? `MeowHash1` never does. -/
def kernelFaults (hw : Hardware) : Kernel → Bool
  | .MeowHash1 => false
  | .MeowHash2 => hw.MeowHash2_faults
  | .MeowHash4 => hw.MeowHash4_faults

/-- One call `K(0, sizeof(Garbage), Garbage)` whose digest is discarded: the
execution is recorded, then the call either returns or raises the fault. -/
def callKernel (hw : Hardware) (k : Kernel) : Run Unit := do
  modify fun p => { p with trace := p.trace ++ [Event.probed k (!kernelFaults hw k)] }
  if kernelFaults hw k then
    throw Fault.illegalInstruction

/-- The assignment `MeowHash = K;`, recorded. -/
def install (k : Kernel) : Run Unit :=
  modify fun p => { MeowHash := k, trace := p.trace ++ [Event.installed k] }

/-- Entry into a `catch(...)` block with the fault `e` in flight: the block is
entered only in a build whose `catch(...)` intercepts hardware faults; in any other
build the fault goes on unhandled. -/
def enterCatchAll (cfg : Build) (e : Fault) : Run Unit :=
  if cfg.catch_intercepts_faults then pure () else throw e

/-- The function `int MeowHashSpecializeForCPU(void)`. Both `try` blocks stand under
`#if MEOW_HASH_AVX512`; without the symbol only the innermost block remains. -/
def MeowHashSpecializeForCPU (cfg : Build) (hw : Hardware) : Run Int := do
  let mut Result : Int := 0
  if cfg.MEOW_HASH_AVX512 then
    try
      callKernel hw Kernel.MeowHash4
      install Kernel.MeowHash4
      Result := 512
    catch e =>
      enterCatchAll cfg e
      try
        callKernel hw Kernel.MeowHash2
        install Kernel.MeowHash2
        Result := 256
      catch e2 =>
        enterCatchAll cfg e2
        install Kernel.MeowHash1
        Result := 128
  else
    install Kernel.MeowHash1
    Result := 128
  return Result

/-- Outcome of one dispatcher call from process state `p`: the value returned, or
the fault that left the dispatcher unhandled, and the state at that point. -/
def dispatch (cfg : Build) (hw : Hardware) (p : Process) : Except Fault Int × Process :=
  (MeowHashSpecializeForCPU cfg hw).run.run p

/-- A sequence of dispatcher calls, one per entry of `hws` (the probe outcomes
seen by that call); it ends at the first call a fault escapes from. -/
def dispatchAll (cfg : Build) : List Hardware → Process → Except Fault Unit × Process
  | [], p => (Except.ok (), p)
  | hw :: rest, p =>
    match dispatch cfg hw p with
    | (Except.ok _, q) => dispatchAll cfg rest q
    | (Except.error e, q) => (Except.error e, q)

/-- The selection in the specification's words: the widest kernel whose probe
completes, `MeowHash1` being always available. -/
def widestRunnable (hw : Hardware) : Kernel :=
  if hw.MeowHash4_faults = false then Kernel.MeowHash4
  else if hw.MeowHash2_faults = false then Kernel.MeowHash2
  else Kernel.MeowHash1

/-- The one situation in which a probe fault leaves the dispatcher: built with
`MEOW_HASH_AVX512`, `MeowHash4` faults, and `catch(...)` does not intercept it. -/
def faultEscapes (cfg : Build) (hw : Hardware) : Bool :=
  cfg.MEOW_HASH_AVX512 && hw.MeowHash4_faults && !cfg.catch_intercepts_faults

/-- The kernel executions one dispatcher call performs, in order. -/
def probesOf (cfg : Build) (hw : Hardware) : List Event :=
  if cfg.MEOW_HASH_AVX512 then
    if hw.MeowHash4_faults then
      if cfg.catch_intercepts_faults then
        [Event.probed Kernel.MeowHash4 false,
          Event.probed Kernel.MeowHash2 (!hw.MeowHash2_faults)]
      else [Event.probed Kernel.MeowHash4 false]
    else [Event.probed Kernel.MeowHash4 true]
  else []

/-- The kernel a dispatcher call that returns has installed. -/
def selected (cfg : Build) (hw : Hardware) : Kernel :=
  if cfg.MEOW_HASH_AVX512 then widestRunnable hw else Kernel.MeowHash1

/-! ## Digest (`meow_hash`, declared in `meow_hash.h`) -/

/-- Modelled from the spec: the `meow_hash` union, whose declaration in
`meow_hash.h` is missing. A digest is one 128-bit value; its views `u32[4]` and
`u64[2]` overlay that value, index 0 being the lowest-order word. -/
structure meow_hash where
  u128 : Nat
  u128_lt : u128 < 2 ^ 128
  deriving DecidableEq

/-- View `Hash.u32[i]`: bits `32*i .. 32*i+31` of the digest. -/
def meow_hash.u32 (Hash : meow_hash) (i : Nat) : Nat :=
  Hash.u128 / 2 ^ (32 * i) % 2 ^ 32

/-- View `Hash.u64[i]`: bits `64*i .. 64*i+63` of the digest. -/
def meow_hash.u64 (Hash : meow_hash) (i : Nat) : Nat :=
  Hash.u128 / 2 ^ (64 * i) % 2 ^ 64

/-- What `meow_hash.h` provides to the three programs, as parameters: the version
string, the digest each kernel computes from `(Seed, Len, bytes at Source)`, and the
digest comparison. -/
structure MeowLib where
  MEOW_HASH_VERSION_NAME : String
  kernel : Kernel → Nat → Nat → List Nat → meow_hash
  MeowHashesAreEqual : meow_hash → meow_hash → Bool

/-! ## Printing a digest (`meow_example.cpp`, lines 108-116) -/

/-- Upper-case hexadecimal digit for a value below 16. -/
def hexDigitUpper (d : Nat) : Char :=
  match d with
  | 0 => '0' | 1 => '1' | 2 => '2' | 3 => '3' | 4 => '4' | 5 => '5' | 6 => '6' | 7 => '7'
  | 8 => '8' | 9 => '9' | 10 => 'A' | 11 => 'B' | 12 => 'C' | 13 => 'D' | 14 => 'E'
  | _ => 'F'

/-- Conversion loop of `%X`: digits are produced from the lowest-order one and
put in front of those already produced, until the quotient is zero. -/
def toHexUpperAux : Nat → Nat → List Char → List Char
  | 0, _, acc => acc
  | fuel + 1, n, acc =>
    if n / 16 = 0 then hexDigitUpper (n % 16) :: acc
    else toHexUpperAux fuel (n / 16) (hexDigitUpper (n % 16) :: acc)

/-- The conversion `%X` of `n`: its upper-case hexadecimal digits, most significant first
(`"0"` for zero). A number has at most `n + 1` digits. -/
def toHexUpper (n : Nat) : List Char :=
  toHexUpperAux (n + 1) n []

/-- The conversion `%08X` of `n`: the `%X` digits, padded on the left with zeros to a minimum
width of 8; longer conversions are not truncated. -/
def fmt08X (n : Nat) : List Char :=
  List.replicate (8 - (toHexUpper n).length) '0' ++ toHexUpper n

/-- The function `PrintHash`: the text `printf("    %08X-%08X-%08X-%08X\n", ...)` writes for the
arguments `Hash.u32[3]`, `Hash.u32[2]`, `Hash.u32[1]`, `Hash.u32[0]`. -/
def PrintHash (Hash : meow_hash) : String :=
  String.mk ([' ', ' ', ' ', ' '] ++ fmt08X (Hash.u32 3) ++ ['-'] ++ fmt08X (Hash.u32 2) ++
    ['-'] ++ fmt08X (Hash.u32 1) ++ ['-'] ++ fmt08X (Hash.u32 0) ++ ['\n'])

/-- Value of a hexadecimal digit character (`0`-`9`, `A`-`F`). -/
def hexValue (c : Char) : Nat :=
  if c.toNat < 58 then c.toNat - 48 else c.toNat - 55

/-- Reads a run of hexadecimal digits, left to right, as one base-16 number. -/
def readHex (s : List Char) : Nat :=
  s.foldl (fun acc c => 16 * acc + hexValue c) 0

/-- The sixteen upper-case hexadecimal digit characters. -/
def upperHexDigits : List Char :=
  ['0', '1', '2', '3', '4', '5', '6', '7', '8', '9', 'A', 'B', 'C', 'D', 'E', 'F']

/-! ## Files and the example program (`meow_example.cpp`, lines 35-41, 118-305) -/

/-- The environment of the C runtime the example program runs in. -/
structure World where
  /-- The call `fopen(Filename, "rb")`: the bytes of the file, or `none` when it cannot be opened. -/
  fopen : String → Option (List Nat)
  /-- Whether `aligned_alloc(MEOW_HASH_ALIGNMENT, Size)` returns a non-null pointer. -/
  aligned_alloc : Nat → Bool

/-- The record `struct entire_file`: `Contents` is `none` for a null pointer, else the bytes
of the buffer it points to. -/
structure entire_file where
  Size : Nat
  Contents : Option (List Nat)
  deriving DecidableEq

/-- The function `ReadEntireFile`: the loaded file and what was printed. The size
is what `ftell` reports at the end of the file; `fread` fills the buffer with the
file's bytes, and is skipped for an empty file. -/
def ReadEntireFile (w : World) (Filename : String) : entire_file × List String :=
  match w.fopen Filename with
  | some bytes =>
    let Size := bytes.length
    if w.aligned_alloc Size then
      if Size ≠ 0 then ({ Size := Size, Contents := some bytes }, [])
      else ({ Size := Size, Contents := some [] }, [])
    else ({ Size := 0, Contents := none }, [])
  | none =>
    ({ Size := 0, Contents := none }, ["ERROR: Unable to load \"" ++ Filename ++ "\"\n"])

/-- The function `FreeEntireFile`: releases the buffer and clears the record. -/
def FreeEntireFile (File : entire_file) : entire_file :=
  match File.Contents with
  | some _ => { Size := 0, Contents := none }
  | none => { File with Size := 0 }

/-- The function `HashTestBuffer`: what it prints, or `none` when the allocation fails and the
fill loop writes through a null pointer. -/
def HashTestBuffer (lib : MeowLib) (w : World) (MeowHash : Kernel) : Option (List String) :=
  let Size := 16000
  if w.aligned_alloc Size then
    let Buffer := (List.range Size).map fun Index => Index % 256
    let Hash := lib.kernel MeowHash 0 Size Buffer
    some ["  Hash of a test buffer:\n", PrintHash Hash]
  else none

/-- The function `HashOneFile`: what it prints. -/
def HashOneFile (lib : MeowLib) (w : World) (MeowHash : Kernel) (FilenameA : String) :
    List String :=
  let A := ReadEntireFile w FilenameA
  match A.1.Contents with
  | some bytes =>
    let HashA := lib.kernel MeowHash 0 A.1.Size bytes
    A.2 ++ ["  Hash of \"" ++ FilenameA ++ "\":\n", PrintHash HashA]
  | none => A.2

/-- The test `memcmp(a, b, n) == 0`: the first `n` bytes of the two buffers agree. -/
def memcmpEqual (a b : List Nat) (n : Nat) : Bool :=
  a.take n == b.take n

/-- The function `CompareTwoFiles`: what it prints. -/
def CompareTwoFiles (lib : MeowLib) (w : World) (MeowHash : Kernel)
    (FilenameA FilenameB : String) : List String :=
  let A := ReadEntireFile w FilenameA
  let B := ReadEntireFile w FilenameB
  match A.1.Contents, B.1.Contents with
  | some bytesA, some bytesB =>
    let HashA := lib.kernel MeowHash 0 A.1.Size bytesA
    let HashB := lib.kernel MeowHash 0 B.1.Size bytesB
    let HashesMatch := lib.MeowHashesAreEqual HashA HashB
    let FilesMatch := A.1.Size == B.1.Size && memcmpEqual bytesA bytesB A.1.Size
    A.2 ++ B.2 ++
      if HashesMatch && FilesMatch then
        ["Files \"" ++ FilenameA ++ "\" and \"" ++ FilenameB ++ "\" are the same:\n",
          PrintHash HashA]
      else if FilesMatch then
        ["MEOW HASH FAILURE: Files match but hashes don't!\n",
          "  Hash of \"" ++ FilenameA ++ "\":\n", PrintHash HashA,
          "  Hash of \"" ++ FilenameB ++ "\":\n", PrintHash HashB]
      else if HashesMatch then
        ["MEOW HASH FAILURE: Hashes match but files don't!\n",
          "  Hash of both \"" ++ FilenameA ++ "\" and \"" ++ FilenameB ++ "\":\n",
          PrintHash HashA]
      else
        ["Files \"" ++ FilenameA ++ "\" and \"" ++ FilenameB ++ "\" are different:\n",
          "  Hash of \"" ++ FilenameA ++ "\":\n", PrintHash HashA,
          "  Hash of \"" ++ FilenameB ++ "\":\n", PrintHash HashB]
  | _, _ => A.2 ++ B.2

/-- What a run of the example program leaves behind: the `printf` outputs in
order and the value `main` returns, the process's exit code. -/
structure Finished where
  stdout : List String
  exitCode : Int
  deriving DecidableEq

/-- The function `main(ArgCount, Args)` with `ArgCount` the number of entries of `Args`.
`none` when the program does not reach `return`: a fault escaping the dispatcher,
or the null-pointer write of `HashTestBuffer`. -/
def main (lib : MeowLib) (cfg : Build) (hw : Hardware) (w : World) (Args : List String) :
    Option Finished :=
  let ArgCount : Int := Args.length
  let banner :=
    ["meow_example " ++ lib.MEOW_HASH_VERSION_NAME ++ " - basic usage example of the Meow hash\n",
      "(C) Copyright 2018 by Molly Rocket, Inc. (https://mollyrocket.com)\n",
      "See https://mollyrocket.com/meowhash for details.\n",
      "\n"]
  match dispatch cfg hw Process.initial with
  | (Except.error _, _) => none
  | (Except.ok BitWidth, p) =>
    let out := banner ++ ["Using " ++ toString BitWidth.toNat ++ "-bit Meow implementation\n"]
    if ArgCount < 2 then
      match HashTestBuffer lib w p.MeowHash with
      | some o => some { stdout := out ++ o, exitCode := 0 }
      | none => none
    else if ArgCount = 2 then
      some { stdout := out ++ HashOneFile lib w p.MeowHash (Args.getD 1 ""), exitCode := 0 }
    else if ArgCount = 3 then
      some { stdout := out ++ CompareTwoFiles lib w p.MeowHash (Args.getD 1 "") (Args.getD 2 ""),
             exitCode := 0 }
    else
      let Args0 := Args.getD 0 ""
      some { stdout := out ++
              ["Usage:\n",
                Args0 ++ " - hash a test buffer\n",
                Args0 ++ " [filename] - hash the contents of [filename]\n",
                Args0 ++ " [filename0] [filename1] - hash the contents of [filename0] and [filename1] and compare them\n"],
             exitCode := 0 }

/-- A stand-in for `meow_hash.h`, for evaluating the programs on concrete runs:
a polynomial checksum as every kernel, and digest equality as the comparison. -/
def sampleLib : MeowLib where
  MEOW_HASH_VERSION_NAME := "0.1"
  kernel := fun _ Seed Len Source =>
    ⟨(Source.foldl (fun a b => 31 * a + b) (Seed + Len)) % 2 ^ 128, Nat.mod_lt _ (by norm_num)⟩
  MeowHashesAreEqual := fun A B => decide (A = B)

/-- A concrete environment: the files `present` and `copy` hold the same three
bytes, no other file can be opened, and every allocation succeeds. -/
def sampleWorld : World where
  fopen := fun Filename =>
    if Filename = "present" ∨ Filename = "copy" then some [77, 69, 79] else none
  aligned_alloc := fun _ => true

/-! ## smhasher adapters (`utils/meow_smhasher.cpp`) -/

/-- The `int len` of the smhasher calling convention as the kernel receives it:
converted to the unsigned 64-bit length parameter. -/
def lenToU64 (len : Int) : Nat :=
  (len % 2 ^ 64).toNat

/-- The adapter `Meow1_32`: the `meow_u32` stored through `out`. -/
def Meow1_32 (lib : MeowLib) (key : List Nat) (len : Int) (seed : Nat) : Nat :=
  let Result := lib.kernel Kernel.MeowHash1 seed (lenToU64 len) key
  Result.u32 0

/-- The adapter `Meow1_64`: the `meow_u64` stored to `out[0]`. -/
def Meow1_64 (lib : MeowLib) (key : List Nat) (len : Int) (seed : Nat) : Nat :=
  let Result := lib.kernel Kernel.MeowHash1 seed (lenToU64 len) key
  Result.u64 0

/-- The adapter `Meow1_128`: the two `meow_u64` stored to `out[0]` and `out[1]`. -/
def Meow1_128 (lib : MeowLib) (key : List Nat) (len : Int) (seed : Nat) : Nat × Nat :=
  let Result := lib.kernel Kernel.MeowHash1 seed (lenToU64 len) key
  (Result.u64 0, Result.u64 1)

/-- The adapter `Meow2_32` (present when built with `MEOW_HASH_AVX512`). -/
def Meow2_32 (lib : MeowLib) (key : List Nat) (len : Int) (seed : Nat) : Nat :=
  let Result := lib.kernel Kernel.MeowHash2 seed (lenToU64 len) key
  Result.u32 0

/-- The adapter `Meow2_64` (present when built with `MEOW_HASH_AVX512`). -/
def Meow2_64 (lib : MeowLib) (key : List Nat) (len : Int) (seed : Nat) : Nat :=
  let Result := lib.kernel Kernel.MeowHash2 seed (lenToU64 len) key
  Result.u64 0

/-- The adapter `Meow2_128` (present when built with `MEOW_HASH_AVX512`). -/
def Meow2_128 (lib : MeowLib) (key : List Nat) (len : Int) (seed : Nat) : Nat × Nat :=
  let Result := lib.kernel Kernel.MeowHash2 seed (lenToU64 len) key
  (Result.u64 0, Result.u64 1)

/-- The adapter `Meow4_32` (present when built with `MEOW_HASH_AVX512`). -/
def Meow4_32 (lib : MeowLib) (key : List Nat) (len : Int) (seed : Nat) : Nat :=
  let Result := lib.kernel Kernel.MeowHash4 seed (lenToU64 len) key
  Result.u32 0

/-- The adapter `Meow4_64` (present when built with `MEOW_HASH_AVX512`). -/
def Meow4_64 (lib : MeowLib) (key : List Nat) (len : Int) (seed : Nat) : Nat :=
  let Result := lib.kernel Kernel.MeowHash4 seed (lenToU64 len) key
  Result.u64 0

/-- The adapter `Meow4_128` (present when built with `MEOW_HASH_AVX512`). -/
def Meow4_128 (lib : MeowLib) (key : List Nat) (len : Int) (seed : Nat) : Nat × Nat :=
  let Result := lib.kernel Kernel.MeowHash4 seed (lenToU64 len) key
  (Result.u64 0, Result.u64 1)

/-- The three outputs `o32`, `o64`, `o128` (the latter `out[0]`, `out[1]`) are
truncations of the one digest `d`: `o128` is all of it, low word first, `o64` its
low 64 bits and `o32` its low 32 bits, so each narrower output is the low part of
the next wider one. -/
def TruncationsOf (d : meow_hash) (o32 o64 : Nat) (o128 : Nat × Nat) : Prop :=
  o128 = (d.u64 0, d.u64 1) ∧
  o128.1 + 2 ^ 64 * o128.2 = d.u128 ∧
  o64 = d.u128 % 2 ^ 64 ∧
  o32 = d.u128 % 2 ^ 32 ∧
  o32 = o64 % 2 ^ 32 ∧
  o64 = (o128.1 + 2 ^ 64 * o128.2) % 2 ^ 64

/-! ## Benchmark (`utils/meow_bench.c`) -/

/-- The record `best_result`: a buffer size and the fewest clocks seen for it. -/
structure best_result where
  Size : Nat
  Clocks : Nat
  deriving DecidableEq, Repr

/-- The value of `ArrayCount(Bests)`: 36 when built for Emscripten, else 40. -/
def BestsCount (emscripten : Bool) : Nat :=
  if emscripten then 36 else 40

/-- The store `Bests[i].Size = v`. -/
def storeSize : List best_result → Nat → Nat → List best_result
  | [], _, _ => []
  | b :: rest, 0, v => { b with Size := v } :: rest
  | b :: rest, i + 1, v => b :: storeSize rest i v

/-- The statement `Bests[BestIndex++].Size = v` on the pair `(Bests, BestIndex)`. -/
def pushSize (st : List best_result × Nat) (v : Nat) : List best_result × Nat :=
  (storeSize st.1 st.2 v, st.2 + 1)

/-- The loop `while (BestIndex < ArrayCount(Bests))` that doubles `Size` (a
`meow_u64`) and stores it; `none` when the fuel runs out before the loop exits. -/
def sizeLoop (count : Nat) : Nat → List best_result → Nat → Nat → Option (List best_result)
  | 0, _, _, _ => none
  | fuel + 1, Bests, BestIndex, Size =>
    if BestIndex < count then
      let Size2 := Size * 2 % 2 ^ 64
      sizeLoop count fuel (storeSize Bests BestIndex Size2) (BestIndex + 1) Size2
    else some Bests

/-- The size-table block of `main`: `Bests` starts zeroed, seventeen sizes are
stored one after the other, the rest are filled by doubling. -/
def initSizes (emscripten : Bool) : Option (List best_result) :=
  let count := BestsCount emscripten
  let st : List best_result × Nat := (List.replicate count { Size := 0, Clocks := 0 }, 0)
  let st := pushSize st 1
  let st := pushSize st 7
  let st := pushSize st 8
  let st := pushSize st 15
  let st := pushSize st 16
  let st := pushSize st 31
  let st := pushSize st 32
  let st := pushSize st 63
  let st := pushSize st 64
  let st := pushSize st 127
  let st := pushSize st 128
  let st := pushSize st 255
  let st := pushSize st 256
  let st := pushSize st 511
  let st := pushSize st 512
  let st := pushSize st 1023
  let st := pushSize st 1024
  let Size := (st.1.getD (st.2 - 1) { Size := 0, Clocks := 0 }).Size
  sizeLoop count (count + 1) st.1 st.2 Size

/-- The `Size` fields of a table, in index order. -/
def sizesOf (Bests : List best_result) : List Nat :=
  Bests.map fun b => b.Size

/-- A power of two, or one less than a power of two (exponent at most 64). -/
def nearPowerOfTwo (v : Nat) : Prop :=
  ∃ k : Fin 65, v = 2 ^ k.val ∨ v + 1 = 2 ^ k.val

instance nearPowerOfTwo.decidable (v : Nat) : Decidable (nearPowerOfTwo v) :=
  inferInstanceAs (Decidable (∃ k : Fin 65, v = 2 ^ k.val ∨ v + 1 = 2 ^ k.val))

/-- The constant `MaxClocksWithoutDrop = 4000000000ULL/8`. -/
def MaxClocksWithoutDrop : Nat :=
  4000000000 / 8

/-- The value `(meow_u64)-1ULL`. -/
def U64Max : Nat :=
  2 ^ 64 - 1

/-- An `int` after `++`: two's-complement wraparound to 32 bits. -/
def wrapInt32 (x : Int) : Int :=
  (x + 2 ^ 31) % 2 ^ 32 - 2 ^ 31

/-- The variables of the timing loop. -/
structure TimingState where
  ClocksSinceLastDrop : Nat
  BestClocks : Nat
  TryIndex : Int
  deriving DecidableEq, Repr

/-- The variables as initialised before the loop. -/
def TimingState.initial : TimingState :=
  { ClocksSinceLastDrop := 0, BestClocks := U64Max, TryIndex := 0 }

/-- The loop condition `(TryIndex < 10) || (ClocksSinceLastDrop < MaxClocksWithoutDrop)`. -/
def timingContinues (s : TimingState) : Bool :=
  decide (s.TryIndex < 10) || decide (s.ClocksSinceLastDrop < MaxClocksWithoutDrop)

/-- The clock delta of try `i`: `EndClock - StartClock` in `meow_u64` arithmetic,
where `rdtsc k` is what the `k`-th call of `__rdtsc()` returns; try `i` makes the
calls `2*i` and `2*i+1`. -/
def clockDelta (rdtsc : Nat → Nat) (i : Nat) : Nat :=
  (rdtsc (2 * i + 1) % 2 ^ 64 + 2 ^ 64 - rdtsc (2 * i) % 2 ^ 64) % 2 ^ 64

/-- One pass through the loop body, given the clock delta it measured. -/
def timingBody (s : TimingState) (Clocks : Nat) : TimingState :=
  let ClocksSinceLastDrop := (s.ClocksSinceLastDrop + Clocks) % 2 ^ 64
  if s.BestClocks > Clocks then
    { ClocksSinceLastDrop := 0, BestClocks := Clocks, TryIndex := wrapInt32 (s.TryIndex + 1) }
  else
    { ClocksSinceLastDrop := ClocksSinceLastDrop, BestClocks := s.BestClocks,
      TryIndex := wrapInt32 (s.TryIndex + 1) }

/-- The timing loop from state `s` with `tries` tries already made. On exit it
gives the final variables and the number of tries made; `none` when the fuel runs
out before the loop exits. -/
def timingLoop (rdtsc : Nat → Nat) : Nat → Nat → TimingState → Option (TimingState × Nat)
  | 0, _, _ => none
  | fuel + 1, tries, s =>
    if timingContinues s then
      timingLoop rdtsc fuel (tries + 1) (timingBody s (clockDelta rdtsc tries))
    else some (s, tries)

/-- The update `if (ThisBest->Clocks > BestClocks) ThisBest->Clocks = BestClocks`. -/
def recordBest (ThisBest : best_result) (BestClocks : Nat) : best_result :=
  if ThisBest.Clocks > BestClocks then { ThisBest with Clocks := BestClocks } else ThisBest

/-- One batch of the benchmark for the table entry `ThisBest`: its `Clocks` is
reset to `(meow_u64)-1ULL`; when the buffer can be allocated the timing loop runs
and its best is recorded. Gives the entry, and the variables and number of tries
of the loop when it ran; `none` when the fuel runs out inside the loop. -/
def timeBatch (rdtsc : Nat → Nat) (fuel : Nat) (Buffer : Bool) (ThisBest : best_result) :
    Option (best_result × Option (TimingState × Nat)) :=
  let Reset : best_result := { ThisBest with Clocks := U64Max }
  if Buffer then
    match timingLoop rdtsc fuel 0 TimingState.initial with
    | some (s, tries) => some (recordBest Reset s.BestClocks, some (s, tries))
    | none => none
  else some (Reset, none)

/-- A clock for concrete runs: every try measures 300000000 clocks. -/
def sampleClock (k : Nat) : Nat :=
  if k % 2 = 0 then 1000 * k else 1000 * (k - 1) + 300000000

/-- The clocks measured in the tries `j, ..., tries - 1`, added up exactly. -/
def clocksSince (rdtsc : Nat → Nat) (j tries : Nat) : Nat :=
  Finset.sum (Finset.Ico j tries) (clockDelta rdtsc)

/-- After `tries` tries, `j` is the number of tries up to and including the last
one that strictly improved the minimum: either no try improved on the initial
`(meow_u64)-1ULL` (`j = 0`), or try `j - 1` measured `BestClocks`, every earlier try
measured more, and no later try measured less. -/
def LastDropAt (rdtsc : Nat → Nat) (tries : Nat) (BestClocks : Nat) (j : Nat) : Prop :=
  j ≤ tries ∧
  ((j = 0 ∧ BestClocks = U64Max) ∨
    (0 < j ∧ clockDelta rdtsc (j - 1) = BestClocks ∧
      ∀ i, i < j - 1 → BestClocks < clockDelta rdtsc i)) ∧
  ∀ i, j ≤ i → i < tries → BestClocks ≤ clockDelta rdtsc i

/-- What the loop variables hold after `tries` tries. -/
def TimingInv (rdtsc : Nat → Nat) (tries : Nat) (s : TimingState) : Prop :=
  s.TryIndex = wrapInt32 tries ∧
  ∃ j, LastDropAt rdtsc tries s.BestClocks j ∧
    s.ClocksSinceLastDrop = clocksSince rdtsc j tries % 2 ^ 64

/-! # Theorems -/

/-! ## Dispatcher -/

/-- Closed form of one dispatcher call. -/
theorem dispatch_eq (cfg : Build) (hw : Hardware) (p : Process) :
    dispatch cfg hw p =
      if faultEscapes cfg hw then
        (Except.error Fault.illegalInstruction,
          { MeowHash := p.MeowHash, trace := p.trace ++ probesOf cfg hw })
      else
        (Except.ok (selected cfg hw).width,
          { MeowHash := selected cfg hw,
            trace := p.trace ++ (probesOf cfg hw ++ [Event.installed (selected cfg hw)]) }) := by
  obtain ⟨a, c⟩ := cfg
  obtain ⟨f4, f2⟩ := hw
  have e2 : ∀ (l : List Event) (x y : Event), l ++ [x, y] = (l ++ [x]) ++ [y] := by
    intro l x y
    simp
  have e3 : ∀ (l : List Event) (x y z : Event),
      l ++ [x, y, z] = ((l ++ [x]) ++ [y]) ++ [z] := by
    intro l x y z
    simp
  cases a <;> cases c <;> cases f4 <;> cases f2 <;>
    simp only [faultEscapes, selected, probesOf, widestRunnable, Kernel.width, if_true,
      if_false, Bool.false_eq_true, Bool.not_true, Bool.not_false, reduceCtorEq, Bool.and_true,
      Bool.and_false, Bool.true_and, Bool.false_and, List.nil_append, List.cons_append,
      List.singleton_append, e2, e3] <;> rfl

/-- The kernel executions of a call hold no store into `MeowHash`. -/
theorem probesOf_no_install (cfg : Build) (hw : Hardware) (k : Kernel) :
    Event.installed k ∉ probesOf cfg hw := by
  obtain ⟨a, c⟩ := cfg
  obtain ⟨f4, f2⟩ := hw
  cases a <;> cases c <;> cases f4 <;> cases f2 <;> simp [probesOf]

/-- C1, as stated, fails: built without `MEOW_HASH_AVX512` (whatever `catch(...)`
intercepts) on a machine where both wide kernels would run, the dispatcher executes
no kernel and installs `MeowHash1`, not the widest kernel that runs (`MeowHash4`). -/
theorem dispatcher_without_avx512_skips_runnable_kernels :
    dispatch { MEOW_HASH_AVX512 := false, catch_intercepts_faults := false }
        { MeowHash4_faults := false, MeowHash2_faults := false } Process.initial
      = (Except.ok 128,
          { MeowHash := Kernel.MeowHash1, trace := [Event.installed Kernel.MeowHash1] }) ∧
    dispatch { MEOW_HASH_AVX512 := false, catch_intercepts_faults := true }
        { MeowHash4_faults := false, MeowHash2_faults := false } Process.initial
      = (Except.ok 128,
          { MeowHash := Kernel.MeowHash1, trace := [Event.installed Kernel.MeowHash1] }) ∧
    widestRunnable { MeowHash4_faults := false, MeowHash2_faults := false } = Kernel.MeowHash4 ∧
    (dispatch { MEOW_HASH_AVX512 := false, catch_intercepts_faults := false }
        { MeowHash4_faults := false, MeowHash2_faults := false } Process.initial).2.MeowHash
      ≠ widestRunnable { MeowHash4_faults := false, MeowHash2_faults := false } :=
  ⟨rfl, rfl, rfl, by decide⟩

/-- C1, amended: built with `MEOW_HASH_AVX512`, the dispatcher executes `MeowHash4`
first. If that probe completes it installs `MeowHash4` and returns 512, whatever
`catch(...)` intercepts. In a build whose `catch(...)` intercepts the fault, for every
combination of probe outcomes it executes `MeowHash2` only after `MeowHash4`
faulted, returns, and installs the widest kernel whose probe ran to completion
(`MeowHash4`, else `MeowHash2`, else `MeowHash1`). Built without the symbol it
executes no kernel and installs `MeowHash1`. -/
theorem dispatcher_selects_widest_runnable (hw : Hardware) (p : Process) (c : Bool) :
    dispatch { MEOW_HASH_AVX512 := true, catch_intercepts_faults := c }
        { MeowHash4_faults := false, MeowHash2_faults := hw.MeowHash2_faults } p =
      (Except.ok 512,
        { MeowHash := Kernel.MeowHash4,
          trace := p.trace ++
            [Event.probed Kernel.MeowHash4 true, Event.installed Kernel.MeowHash4] }) ∧
    dispatch { MEOW_HASH_AVX512 := true, catch_intercepts_faults := true } hw p =
      (Except.ok (widestRunnable hw).width,
        { MeowHash := widestRunnable hw,
          trace := p.trace ++
            ((if hw.MeowHash4_faults then
              [Event.probed Kernel.MeowHash4 false,
                Event.probed Kernel.MeowHash2 (!hw.MeowHash2_faults)]
             else [Event.probed Kernel.MeowHash4 true]) ++
              [Event.installed (widestRunnable hw)]) }) ∧
    dispatch { MEOW_HASH_AVX512 := false, catch_intercepts_faults := c } hw p =
      (Except.ok 128,
        { MeowHash := Kernel.MeowHash1,
          trace := p.trace ++ [Event.installed Kernel.MeowHash1] }) := by
  refine ⟨?_, ?_, ?_⟩
  · rw [dispatch_eq]
    cases c <;> rfl
  · rw [dispatch_eq]
    obtain ⟨f4, f2⟩ := hw
    cases f4 <;> cases f2 <;> rfl
  · rw [dispatch_eq]
    cases c <;> rfl

/-- C2 at its failing input: built with `MEOW_HASH_AVX512` by a compiler whose
`catch(...)` does not intercept hardware faults, on a machine where `MeowHash4`
faults, the first dispatcher call of the process does not return: the fault raised
by the `MeowHash4` probe leaves the dispatcher unhandled, after that one probe and
before any kernel is installed; a sequence of calls ends there, and so does the
example program, which never reaches its `return`. -/
theorem dispatcher_fault_escapes_uncaught :
    dispatch { MEOW_HASH_AVX512 := true, catch_intercepts_faults := false }
        { MeowHash4_faults := true, MeowHash2_faults := false } Process.initial
      = (Except.error Fault.illegalInstruction,
          { MeowHash := Kernel.MeowHash1,
            trace := [Event.probed Kernel.MeowHash4 false] }) ∧
    dispatchAll { MEOW_HASH_AVX512 := true, catch_intercepts_faults := false }
        [{ MeowHash4_faults := true, MeowHash2_faults := false },
          { MeowHash4_faults := true, MeowHash2_faults := false }] Process.initial
      = (Except.error Fault.illegalInstruction,
          { MeowHash := Kernel.MeowHash1,
            trace := [Event.probed Kernel.MeowHash4 false] }) ∧
    main sampleLib { MEOW_HASH_AVX512 := true, catch_intercepts_faults := false }
        { MeowHash4_faults := true, MeowHash2_faults := false } sampleWorld
        ["meow_example", "present"] = none :=
  ⟨rfl, rfl, by decide⟩

/-- C3: for every build, probe outcome and prior state, the dispatcher returns
unless the probe fault escapes it, and whenever it returns a value `w`, the call
has stored exactly one kernel into `MeowHash`, as the last thing it did, that kernel
is the active one afterwards, `w` is in {128, 256, 512} and is that kernel's lane
width: 512 exactly when `MeowHash` is `MeowHash4`, 256 exactly when it is
`MeowHash2`, 128 exactly when it is `MeowHash1`. -/
theorem dispatcher_returns_installed_width (cfg : Build) (hw : Hardware) (p : Process) :
    (faultEscapes cfg hw = false → ∃ w r, dispatch cfg hw p = (Except.ok w, r)) ∧
    ∀ w r, dispatch cfg hw p = (Except.ok w, r) →
      (∃ probes, r.trace = p.trace ++ (probes ++ [Event.installed r.MeowHash]) ∧
        ∀ k, Event.installed k ∉ probes) ∧
      (w = 128 ∨ w = 256 ∨ w = 512) ∧
      w = r.MeowHash.width ∧
      (w = 512 ↔ r.MeowHash = Kernel.MeowHash4) ∧
      (w = 256 ↔ r.MeowHash = Kernel.MeowHash2) ∧
      (w = 128 ↔ r.MeowHash = Kernel.MeowHash1) := by
  have key := dispatch_eq cfg hw p
  constructor
  · intro h
    rw [h] at key
    exact ⟨_, _, key⟩
  · intro w r h
    cases hesc : faultEscapes cfg hw with
    | true =>
      rw [hesc, h] at key
      simp at key
    | false =>
      rw [hesc, h] at key
      simp only [Bool.false_eq_true, if_false, Prod.mk.injEq, Except.ok.injEq] at key
      obtain ⟨hw1, hr⟩ := key
      subst hw1
      subst hr
      refine ⟨⟨probesOf cfg hw, rfl, probesOf_no_install cfg hw⟩, ?_⟩
      cases selected cfg hw <;> simp [Kernel.width]

/-- C3 at a concrete call: an AVX-512 machine, built with `MEOW_HASH_AVX512` by a
compiler whose `catch(...)` does not intercept faults. -/
theorem dispatcher_returns_installed_width_witness :
    faultEscapes { MEOW_HASH_AVX512 := true, catch_intercepts_faults := false }
      { MeowHash4_faults := false, MeowHash2_faults := false } = false ∧
    dispatch { MEOW_HASH_AVX512 := true, catch_intercepts_faults := false }
        { MeowHash4_faults := false, MeowHash2_faults := false } Process.initial
      = (Except.ok 512,
          { MeowHash := Kernel.MeowHash4,
            trace := [Event.probed Kernel.MeowHash4 true,
              Event.installed Kernel.MeowHash4] }) ∧
    (∃ w r, dispatch { MEOW_HASH_AVX512 := true, catch_intercepts_faults := false }
        { MeowHash4_faults := false, MeowHash2_faults := false } Process.initial
      = (Except.ok w, r)) ∧
    (∃ probes,
      [Event.probed Kernel.MeowHash4 true, Event.installed Kernel.MeowHash4] =
        Process.initial.trace ++ (probes ++ [Event.installed Kernel.MeowHash4]) ∧
        ∀ k, Event.installed k ∉ probes) ∧
    ((512 : Int) = 128 ∨ (512 : Int) = 256 ∨ (512 : Int) = 512) ∧
    (512 : Int) = Kernel.MeowHash4.width ∧
    ((512 : Int) = 512 ↔ Kernel.MeowHash4 = Kernel.MeowHash4) ∧
    ((512 : Int) = 256 ↔ Kernel.MeowHash4 = Kernel.MeowHash2) ∧
    ((512 : Int) = 128 ↔ Kernel.MeowHash4 = Kernel.MeowHash1) :=
  ⟨by decide, rfl,
    (dispatcher_returns_installed_width
      { MEOW_HASH_AVX512 := true, catch_intercepts_faults := false }
      { MeowHash4_faults := false, MeowHash2_faults := false } Process.initial).1 (by decide),
    (dispatcher_returns_installed_width
      { MEOW_HASH_AVX512 := true, catch_intercepts_faults := false }
      { MeowHash4_faults := false, MeowHash2_faults := false } Process.initial).2 512
      { MeowHash := Kernel.MeowHash4,
        trace := [Event.probed Kernel.MeowHash4 true, Event.installed Kernel.MeowHash4] }
      rfl⟩

/-- C4: for fixed build and probe outcomes, what a call returns does not depend on
the state before it, and on every call that returns neither does the active
implementation after it; a second call returns the same as the first and, the
first having returned, leaves the same active implementation. -/
theorem dispatcher_selection_idempotent (cfg : Build) (hw : Hardware) (p p2 : Process) :
    (dispatch cfg hw p).1 = (dispatch cfg hw p2).1 ∧
    (∀ w, (dispatch cfg hw p).1 = Except.ok w →
      (dispatch cfg hw p).2.MeowHash = (dispatch cfg hw p2).2.MeowHash) ∧
    (dispatch cfg hw (dispatch cfg hw p).2).1 = (dispatch cfg hw p).1 ∧
    (∀ w, (dispatch cfg hw p).1 = Except.ok w →
      (dispatch cfg hw (dispatch cfg hw p).2).2.MeowHash = (dispatch cfg hw p).2.MeowHash) := by
  have first := dispatch_eq cfg hw p
  have other := dispatch_eq cfg hw p2
  have second := dispatch_eq cfg hw (dispatch cfg hw p).2
  cases hesc : faultEscapes cfg hw with
  | true =>
    rw [hesc] at first other second
    simp only [if_true] at first other second
    rw [second, first, other]
    refine ⟨rfl, ?_, rfl, ?_⟩
    · intro w h
      simp at h
    · intro w h
      simp at h
  | false =>
    rw [hesc] at first other second
    simp only [Bool.false_eq_true, if_false] at first other second
    rw [second, first, other]
    exact ⟨rfl, fun _ _ => rfl, rfl, fun _ _ => rfl⟩

/-- C4 at a concrete pair of prior states: the initial one, and one left behind
by an earlier call that had installed `MeowHash2`. -/
theorem dispatcher_selection_idempotent_witness :
    (dispatch { MEOW_HASH_AVX512 := true, catch_intercepts_faults := false }
        { MeowHash4_faults := false, MeowHash2_faults := false } Process.initial).1
      = Except.ok 512 ∧
    (dispatch { MEOW_HASH_AVX512 := true, catch_intercepts_faults := false }
        { MeowHash4_faults := false, MeowHash2_faults := false } Process.initial).2.MeowHash
      = (dispatch { MEOW_HASH_AVX512 := true, catch_intercepts_faults := false }
          { MeowHash4_faults := false, MeowHash2_faults := false }
          { MeowHash := Kernel.MeowHash2, trace := [] }).2.MeowHash ∧
    (dispatch { MEOW_HASH_AVX512 := true, catch_intercepts_faults := false }
        { MeowHash4_faults := false, MeowHash2_faults := false }
        (dispatch { MEOW_HASH_AVX512 := true, catch_intercepts_faults := false }
          { MeowHash4_faults := false, MeowHash2_faults := false }
          Process.initial).2).2.MeowHash
      = (dispatch { MEOW_HASH_AVX512 := true, catch_intercepts_faults := false }
          { MeowHash4_faults := false, MeowHash2_faults := false }
          Process.initial).2.MeowHash :=
  ⟨rfl,
    (dispatcher_selection_idempotent
      { MEOW_HASH_AVX512 := true, catch_intercepts_faults := false }
      { MeowHash4_faults := false, MeowHash2_faults := false } Process.initial
      { MeowHash := Kernel.MeowHash2, trace := [] }).2.1 512 rfl,
    (dispatcher_selection_idempotent
      { MEOW_HASH_AVX512 := true, catch_intercepts_faults := false }
      { MeowHash4_faults := false, MeowHash2_faults := false } Process.initial
      { MeowHash := Kernel.MeowHash2, trace := [] }).2.2.2 512 rfl⟩

/-! ## Printing -/

theorem hexValue_hexDigitUpper (d : Nat) (h : d < 16) : hexValue (hexDigitUpper d) = d := by
  interval_cases d <;> rfl

theorem hexDigitUpper_mem (d : Nat) : hexDigitUpper d ∈ upperHexDigits := by
  unfold hexDigitUpper
  split <;> decide

/-- Reading digits from a start value: the start value is shifted left by one
hexadecimal place per digit read. -/
theorem foldl_hex (s : List Char) (v : Nat) :
    s.foldl (fun acc c => 16 * acc + hexValue c) v = v * 16 ^ s.length + readHex s := by
  unfold readHex
  induction s generalizing v with
  | nil => simp
  | cons c t ih =>
    simp only [List.foldl_cons, List.length_cons]
    rw [ih (16 * v + hexValue c), ih (16 * 0 + hexValue c)]
    ring

theorem readHex_append (a b : List Char) :
    readHex (a ++ b) = readHex a * 16 ^ b.length + readHex b := by
  unfold readHex
  rw [List.foldl_append, foldl_hex]
  rfl

theorem readHex_replicate_zero (k : Nat) : readHex (List.replicate k '0') = 0 := by
  induction k with
  | zero => rfl
  | succ k ih =>
    have h : List.replicate (k + 1) '0' = ['0'] ++ List.replicate k '0' := rfl
    have h0 : readHex ['0'] = 0 := by decide
    rw [h, readHex_append, ih, h0]
    simp

/-- The conversion loop, given enough fuel, puts the digits of `n` in front of `acc`. -/
theorem readHex_toHexUpperAux (fuel n : Nat) (acc : List Char) (h : n < fuel) :
    readHex (toHexUpperAux fuel n acc) = n * 16 ^ acc.length + readHex acc := by
  induction fuel generalizing n acc with
  | zero => omega
  | succ fuel ih =>
    have hd : hexValue (hexDigitUpper (n % 16)) = n % 16 :=
      hexValue_hexDigitUpper _ (Nat.mod_lt _ (by norm_num))
    have hc : readHex (hexDigitUpper (n % 16) :: acc) = n % 16 * 16 ^ acc.length + readHex acc := by
      have h1 : hexDigitUpper (n % 16) :: acc = [hexDigitUpper (n % 16)] ++ acc := rfl
      rw [h1, readHex_append]
      simp [readHex, hd]
    unfold toHexUpperAux
    split
    · next h0 =>
      rw [hc]
      have : n % 16 = n := by omega
      rw [this]
    · next h0 =>
      rw [ih (n / 16) _ (by omega), hc, List.length_cons, pow_succ]
      have : n = 16 * (n / 16) + n % 16 := (Nat.div_add_mod n 16).symm
      generalize 16 ^ acc.length = m at *
      generalize n / 16 = q at *
      generalize n % 16 = r at *
      subst this
      ring

theorem readHex_toHexUpper (n : Nat) : readHex (toHexUpper n) = n := by
  unfold toHexUpper
  rw [readHex_toHexUpperAux _ _ _ (Nat.lt_succ_self n)]
  simp [readHex]

theorem length_toHexUpperAux (fuel n k : Nat) (acc : List Char) (h : n < 16 ^ (k + 1)) :
    (toHexUpperAux fuel n acc).length ≤ k + 1 + acc.length := by
  induction fuel generalizing n k acc with
  | zero => simp [toHexUpperAux]
  | succ fuel ih =>
    unfold toHexUpperAux
    split
    · simp; omega
    · next h0 =>
      cases k with
      | zero => simp at h; omega
      | succ k =>
        have hq : n / 16 < 16 ^ (k + 1) := by
          rw [Nat.div_lt_iff_lt_mul (by norm_num)]
          rw [pow_succ] at h
          exact h
        have := ih (n / 16) k (hexDigitUpper (n % 16) :: acc) hq
        simp only [List.length_cons] at this
        omega

theorem mem_toHexUpperAux (fuel n : Nat) (acc : List Char)
    (h : ∀ c ∈ acc, c ∈ upperHexDigits) :
    ∀ c ∈ toHexUpperAux fuel n acc, c ∈ upperHexDigits := by
  induction fuel generalizing n acc with
  | zero => simpa [toHexUpperAux] using h
  | succ fuel ih =>
    have hc : ∀ c ∈ hexDigitUpper (n % 16) :: acc, c ∈ upperHexDigits := by
      intro c hc
      rcases List.mem_cons.mp hc with rfl | hc
      · exact hexDigitUpper_mem _
      · exact h c hc
    unfold toHexUpperAux
    split
    · exact hc
    · exact ih _ _ hc

/-- The conversion `%08X` of a 32-bit word: exactly 8 upper-case hexadecimal digits that read
back as the word. -/
theorem fmt08X_word (n : Nat) (h : n < 2 ^ 32) :
    (fmt08X n).length = 8 ∧ (∀ c ∈ fmt08X n, c ∈ upperHexDigits) ∧ readHex (fmt08X n) = n := by
  have hlen : (toHexUpper n).length ≤ 8 := by
    have := length_toHexUpperAux (n + 1) n 7 [] (by norm_num at h ⊢; exact h)
    simpa [toHexUpper] using this
  refine ⟨?_, ?_, ?_⟩
  · simp only [fmt08X, List.length_append, List.length_replicate]
    omega
  · intro c hc
    simp only [fmt08X, List.mem_append] at hc
    rcases hc with hc | hc
    · rw [(List.mem_replicate.mp hc).2]
      decide
    · exact mem_toHexUpperAux _ _ [] (by simp) c hc
  · simp only [fmt08X]
    rw [readHex_append, readHex_replicate_zero, readHex_toHexUpper]
    simp

/-- The four 32-bit views, most significant first, make up the 128-bit value. -/
theorem u32_views_compose (Hash : meow_hash) :
    ((Hash.u32 3 * 16 ^ 8 + Hash.u32 2) * 16 ^ 8 + Hash.u32 1) * 16 ^ 8 + Hash.u32 0
      = Hash.u128 := by
  have h := Hash.u128_lt
  simp only [meow_hash.u32]
  norm_num at h ⊢
  omega

theorem meow_hash_ext (A B : meow_hash) (h : A.u128 = B.u128) : A = B := by
  cases A
  cases B
  simp only [meow_hash.mk.injEq]
  exact h

/-- C6: for every digest `PrintHash` writes four spaces, then four groups separated
by single hyphens, then a newline, the only one in the text; the groups are
`u32[3]`, `u32[2]`, `u32[1]`, `u32[0]` in this order, each exactly 8 upper-case
hexadecimal digits reading back as that word; the 32 digits of the line, read left
to right as one base-16 number, are the digest's 128-bit value; and two digests
print the same line exactly when they are equal. -/
theorem PrintHash_line (Hash : meow_hash) :
    (∃ g3 g2 g1 g0 : List Char,
      (PrintHash Hash).data =
        [' ', ' ', ' ', ' '] ++ g3 ++ ['-'] ++ g2 ++ ['-'] ++ g1 ++ ['-'] ++ g0 ++ ['\n'] ∧
      g3.length = 8 ∧ g2.length = 8 ∧ g1.length = 8 ∧ g0.length = 8 ∧
      (∀ c ∈ g3 ++ g2 ++ g1 ++ g0, c ∈ upperHexDigits) ∧
      readHex g3 = Hash.u32 3 ∧ readHex g2 = Hash.u32 2 ∧
      readHex g1 = Hash.u32 1 ∧ readHex g0 = Hash.u32 0 ∧
      readHex (g3 ++ g2 ++ g1 ++ g0) = Hash.u128) ∧
    (PrintHash Hash).data.count '\n' = 1 ∧
    readHex ((PrintHash Hash).data.filter fun c => decide (c ∈ upperHexDigits)) = Hash.u128 ∧
    ∀ Other : meow_hash, PrintHash Hash = PrintHash Other ↔ Hash = Other := by
  have word : ∀ (H : meow_hash) (i : Nat), H.u32 i < 2 ^ 32 := fun H i =>
    Nat.mod_lt _ (by norm_num)
  have digits : ∀ H : meow_hash,
      readHex ((PrintHash H).data.filter fun c => decide (c ∈ upperHexDigits)) = H.u128 := by
    intro H
    obtain ⟨l3, m3, r3⟩ := fmt08X_word _ (word H 3)
    obtain ⟨l2, m2, r2⟩ := fmt08X_word _ (word H 2)
    obtain ⟨l1, m1, r1⟩ := fmt08X_word _ (word H 1)
    obtain ⟨l0, m0, r0⟩ := fmt08X_word _ (word H 0)
    have keep : ∀ g : List Char, (∀ c ∈ g, c ∈ upperHexDigits) →
        g.filter (fun c => decide (c ∈ upperHexDigits)) = g := by
      intro g hg
      rw [List.filter_eq_self]
      intro c hc
      exact decide_eq_true (hg c hc)
    have e1 : List.filter (fun c => decide (c ∈ upperHexDigits)) [' ', ' ', ' ', ' '] = [] := by
      decide
    have e2 : List.filter (fun c => decide (c ∈ upperHexDigits)) ['-'] = [] := by decide
    have e3 : List.filter (fun c => decide (c ∈ upperHexDigits)) ['\n'] = [] := by decide
    simp only [PrintHash, List.filter_append, keep _ m3, keep _ m2, keep _ m1, keep _ m0,
      e1, e2, e3, List.append_nil, List.nil_append]
    rw [readHex_append, readHex_append, readHex_append, l0, l1, l2, r0, r1, r2, r3]
    exact u32_views_compose H
  refine ⟨⟨fmt08X (Hash.u32 3), fmt08X (Hash.u32 2), fmt08X (Hash.u32 1), fmt08X (Hash.u32 0),
    rfl, ?_⟩, ?_, digits Hash, ?_⟩
  · obtain ⟨l3, m3, r3⟩ := fmt08X_word _ (word Hash 3)
    obtain ⟨l2, m2, r2⟩ := fmt08X_word _ (word Hash 2)
    obtain ⟨l1, m1, r1⟩ := fmt08X_word _ (word Hash 1)
    obtain ⟨l0, m0, r0⟩ := fmt08X_word _ (word Hash 0)
    refine ⟨l3, l2, l1, l0, ?_, r3, r2, r1, r0, ?_⟩
    · intro c hc
      simp only [List.mem_append] at hc
      rcases hc with ((hc | hc) | hc) | hc
      · exact m3 c hc
      · exact m2 c hc
      · exact m1 c hc
      · exact m0 c hc
    · rw [readHex_append, readHex_append, readHex_append, l0, l1, l2, r0, r1, r2, r3]
      exact u32_views_compose Hash
  · have none : ∀ n, n < 2 ^ 32 → (fmt08X n).count '\n' = 0 := by
      intro n hn
      rw [List.count_eq_zero]
      intro hmem
      have := (fmt08X_word n hn).2.1 _ hmem
      revert this
      decide
    simp only [PrintHash, List.count_append, none _ (word Hash 3), none _ (word Hash 2),
      none _ (word Hash 1), none _ (word Hash 0)]
    decide
  · intro Other
    constructor
    · intro h
      apply meow_hash_ext
      rw [← digits Hash, ← digits Other, h]
    · intro h
      rw [h]

/-! ## The example program -/

/-- A file that loads has a buffer holding exactly `Size` bytes, and loading it
prints nothing. -/
theorem ReadEntireFile_loaded (w : World) (Filename : String) (bytes : List Nat)
    (h : (ReadEntireFile w Filename).1.Contents = some bytes) :
    bytes.length = (ReadEntireFile w Filename).1.Size ∧ (ReadEntireFile w Filename).2 = [] := by
  unfold ReadEntireFile at h ⊢
  cases hf : w.fopen Filename with
  | none => simp [hf] at h
  | some b =>
    simp only [hf] at h ⊢
    by_cases ha : w.aligned_alloc b.length = true
    · by_cases hz : b.length = 0
      · have ha0 : w.aligned_alloc 0 = true := hz ▸ ha
        simp only [hz, ha0, ne_eq, not_true_eq_false, if_true, if_false,
          Option.some.injEq] at h ⊢
        simp [← h]
      · simp only [ha, hz, ne_eq, not_false_eq_true, if_true, Option.some.injEq] at h ⊢
        simp [← h]
    · simp [ha] at h

/-- Two texts whose first characters differ are different. -/
theorem ne_of_head_ne (s t : String) (h : s.data.head? ≠ t.data.head?) : s ≠ t := by
  intro e
  exact h (by rw [e])

/-- C8: for two files that both load, have the same size and compare equal under
`memcmp`, with `MeowHashesAreEqual` being equality of the 128-bit digests, the two
digests the active implementation computes are reported equal, `CompareTwoFiles`
prints exactly the "are the same" line and the digest, and the line
"MEOW HASH FAILURE: Files match but hashes don't!" is not printed. -/
theorem CompareTwoFiles_identical_files (lib : MeowLib) (w : World) (MeowHash : Kernel)
    (FilenameA FilenameB : String) (bytesA bytesB : List Nat)
    (hA : (ReadEntireFile w FilenameA).1.Contents = some bytesA)
    (hB : (ReadEntireFile w FilenameB).1.Contents = some bytesB)
    (hsize : (ReadEntireFile w FilenameA).1.Size = (ReadEntireFile w FilenameB).1.Size)
    (hbytes : memcmpEqual bytesA bytesB (ReadEntireFile w FilenameA).1.Size = true)
    (heq : ∀ x y : meow_hash, lib.MeowHashesAreEqual x y = true ↔ x = y) :
    lib.MeowHashesAreEqual
        (lib.kernel MeowHash 0 (ReadEntireFile w FilenameA).1.Size bytesA)
        (lib.kernel MeowHash 0 (ReadEntireFile w FilenameB).1.Size bytesB) = true ∧
    CompareTwoFiles lib w MeowHash FilenameA FilenameB =
      ["Files \"" ++ FilenameA ++ "\" and \"" ++ FilenameB ++ "\" are the same:\n",
        PrintHash (lib.kernel MeowHash 0 (ReadEntireFile w FilenameA).1.Size bytesA)] ∧
    "MEOW HASH FAILURE: Files match but hashes don't!\n" ∉
      CompareTwoFiles lib w MeowHash FilenameA FilenameB := by
  obtain ⟨lenA, outA⟩ := ReadEntireFile_loaded w FilenameA bytesA hA
  obtain ⟨lenB, outB⟩ := ReadEntireFile_loaded w FilenameB bytesB hB
  have same : bytesA = bytesB := by
    have h := hbytes
    simp only [memcmpEqual, beq_iff_eq] at h
    rw [List.take_of_length_le (le_of_eq lenA),
      List.take_of_length_le (le_of_eq (lenB.trans hsize.symm))] at h
    exact h
  have hashes : lib.MeowHashesAreEqual
      (lib.kernel MeowHash 0 (ReadEntireFile w FilenameA).1.Size bytesA)
      (lib.kernel MeowHash 0 (ReadEntireFile w FilenameB).1.Size bytesB) = true := by
    rw [heq, hsize, same]
  have out : CompareTwoFiles lib w MeowHash FilenameA FilenameB =
      ["Files \"" ++ FilenameA ++ "\" and \"" ++ FilenameB ++ "\" are the same:\n",
        PrintHash (lib.kernel MeowHash 0 (ReadEntireFile w FilenameA).1.Size bytesA)] := by
    have hashes2 := hashes
    have hbytes2 := hbytes
    rw [hsize] at hashes2 hbytes2
    unfold CompareTwoFiles
    simp only [hA, hB, outA, outB, hsize, hashes2, hbytes2, beq_self_eq_true, Bool.and_self,
      if_true, List.append_nil, List.nil_append]
  refine ⟨hashes, out, ?_⟩
  rw [out]
  intro hmem
  simp only [List.mem_cons, List.mem_singleton, List.not_mem_nil, or_false] at hmem
  rcases hmem with h | h
  · revert h
    apply ne_of_head_ne
    simp [String.data_append]
  · revert h
    apply ne_of_head_ne
    simp [PrintHash]

/-- C8 at a concrete run: the files `present` and `copy` hold the same bytes. -/
theorem CompareTwoFiles_identical_files_witness :
    (ReadEntireFile sampleWorld "present").1.Contents = some [77, 69, 79] ∧
    (ReadEntireFile sampleWorld "copy").1.Contents = some [77, 69, 79] ∧
    (ReadEntireFile sampleWorld "present").1.Size = (ReadEntireFile sampleWorld "copy").1.Size ∧
    memcmpEqual [77, 69, 79] [77, 69, 79] (ReadEntireFile sampleWorld "present").1.Size = true ∧
    (∀ x y : meow_hash, sampleLib.MeowHashesAreEqual x y = true ↔ x = y) ∧
    sampleLib.MeowHashesAreEqual
        (sampleLib.kernel Kernel.MeowHash1 0 (ReadEntireFile sampleWorld "present").1.Size
          [77, 69, 79])
        (sampleLib.kernel Kernel.MeowHash1 0 (ReadEntireFile sampleWorld "copy").1.Size
          [77, 69, 79]) = true ∧
    CompareTwoFiles sampleLib sampleWorld Kernel.MeowHash1 "present" "copy" =
      ["Files \"" ++ "present" ++ "\" and \"" ++ "copy" ++ "\" are the same:\n",
        PrintHash (sampleLib.kernel Kernel.MeowHash1 0
          (ReadEntireFile sampleWorld "present").1.Size [77, 69, 79])] ∧
    "MEOW HASH FAILURE: Files match but hashes don't!\n" ∉
      CompareTwoFiles sampleLib sampleWorld Kernel.MeowHash1 "present" "copy" :=
  ⟨by decide, by decide, by decide, by decide, fun _ _ => decide_eq_true_iff,
    CompareTwoFiles_identical_files sampleLib sampleWorld Kernel.MeowHash1 "present" "copy"
      [77, 69, 79] [77, 69, 79] (by decide) (by decide) (by decide) (by decide)
      (fun _ _ => decide_eq_true_iff)⟩

/-! ## smhasher adapters -/

/-- The low views of a digest are truncations of its 128-bit value. -/
theorem truncationsOf_views (d : meow_hash) :
    TruncationsOf d (d.u32 0) (d.u64 0) (d.u64 0, d.u64 1) := by
  have h := d.u128_lt
  simp only [TruncationsOf, meow_hash.u32, meow_hash.u64]
  norm_num at h ⊢
  omega

/-- C7: for every key, length and seed, and for each of the kernels `MeowHash1`,
`MeowHash2`, `MeowHash4`, the three adapters of that kernel output truncations of
the one digest the kernel computes for `(seed, len, key)`: the `_128` adapter
writes the whole digest (`u64[0]`, then `u64[1]`), the `_64` adapter its low 64
bits, the `_32` adapter its low 32 bits, so the `_32` output is the low 32 bits of
the `_64` output, which is the low 64 bits of the `_128` output. -/
theorem smhasher_adapters_truncate_one_digest (lib : MeowLib) (key : List Nat) (len : Int)
    (seed : Nat) :
    TruncationsOf (lib.kernel Kernel.MeowHash1 seed (lenToU64 len) key)
      (Meow1_32 lib key len seed) (Meow1_64 lib key len seed) (Meow1_128 lib key len seed) ∧
    TruncationsOf (lib.kernel Kernel.MeowHash2 seed (lenToU64 len) key)
      (Meow2_32 lib key len seed) (Meow2_64 lib key len seed) (Meow2_128 lib key len seed) ∧
    TruncationsOf (lib.kernel Kernel.MeowHash4 seed (lenToU64 len) key)
      (Meow4_32 lib key len seed) (Meow4_64 lib key len seed) (Meow4_128 lib key len seed) :=
  ⟨truncationsOf_views _, truncationsOf_views _, truncationsOf_views _⟩

/-! ## Benchmark -/

/-- C9: in both builds the size-table block finishes, and the table has
`ArrayCount(Bests)` entries (40, or 36 for Emscripten): entries 0..16 are 1, 7, 8,
15, 16, 31, 32, 63, 64, 127, 128, 255, 256, 511, 512, 1023, 1024, every entry
`i >= 16` is exactly `2^(i-6)` (the 64-bit doubling never wraps), every entry is a
power of two or one less than one, is not 0 and is at most `2^33`, the entries are
strictly increasing, and the last one is `2^33` (`2^29` for Emscripten). -/
theorem size_table_near_powers_of_two (emscripten : Bool) :
    ∃ sizes : List Nat, (initSizes emscripten).map sizesOf = some sizes ∧
      sizes.length = BestsCount emscripten ∧
      sizes.take 17 =
        [1, 7, 8, 15, 16, 31, 32, 63, 64, 127, 128, 255, 256, 511, 512, 1023, 1024] ∧
      (∀ j : Fin (BestsCount emscripten - 16),
        sizes.getD (16 + j.val) 0 = 2 ^ (16 + j.val - 6)) ∧
      (∀ i : Fin (BestsCount emscripten),
        nearPowerOfTwo (sizes.getD i.val 0) ∧ sizes.getD i.val 0 ≠ 0 ∧
          sizes.getD i.val 0 ≤ 2 ^ 33) ∧
      List.Pairwise (fun a b => a < b) sizes ∧
      sizes.getLast? = some (if emscripten then 2 ^ 29 else 2 ^ 33) := by
  cases emscripten
  · refine ⟨[1, 7, 8, 15, 16, 31, 32, 63, 64, 127, 128, 255, 256, 511, 512, 1023] ++
      (List.range 24).map (fun j => 2 ^ (j + 10)), by decide, by decide, by decide, by decide,
      by decide, by decide, by decide⟩
  · refine ⟨[1, 7, 8, 15, 16, 31, 32, 63, 64, 127, 128, 255, 256, 511, 512, 1023] ++
      (List.range 20).map (fun j => 2 ^ (j + 10)), by decide, by decide, by decide, by decide,
      by decide, by decide, by decide⟩

theorem clockDelta_le (rdtsc : Nat → Nat) (i : Nat) : clockDelta rdtsc i ≤ U64Max := by
  have : clockDelta rdtsc i < 2 ^ 64 := Nat.mod_lt _ (by norm_num)
  unfold U64Max
  omega

/-- At the last drop the best is below every measurement made so far. -/
theorem LastDropAt.le_all (rdtsc : Nat → Nat) (tries best j : Nat)
    (h : LastDropAt rdtsc tries best j) (i : Nat) (hi : i < tries) :
    best ≤ clockDelta rdtsc i := by
  obtain ⟨_, hb, ha⟩ := h
  rcases hb with ⟨j0, _⟩ | ⟨jpos, hj, hlt⟩
  · exact ha i (by omega) hi
  · by_cases h1 : i < j - 1
    · exact le_of_lt (hlt i h1)
    · by_cases h2 : i = j - 1
      · rw [h2, hj]
      · exact ha i (by omega) hi

theorem timingInv_initial (rdtsc : Nat → Nat) : TimingInv rdtsc 0 TimingState.initial := by
  refine ⟨by decide, 0, ⟨le_refl 0, Or.inl ⟨rfl, rfl⟩, ?_⟩, ?_⟩
  · intro i _ hi
    omega
  · simp [clocksSince, TimingState.initial]

theorem wrapInt32_succ (n : Nat) : wrapInt32 (wrapInt32 (n : Int) + 1) = wrapInt32 ((n + 1 : Nat) : Int) := by
  unfold wrapInt32
  push_cast
  omega

theorem timingInv_step (rdtsc : Nat → Nat) (tries : Nat) (s : TimingState)
    (h : TimingInv rdtsc tries s) :
    TimingInv rdtsc (tries + 1) (timingBody s (clockDelta rdtsc tries)) := by
  obtain ⟨hT, j, hdrop, hsum⟩ := h
  have hall := LastDropAt.le_all rdtsc tries s.BestClocks j hdrop
  obtain ⟨hj, hb, ha⟩ := hdrop
  unfold timingBody
  by_cases hgt : s.BestClocks > clockDelta rdtsc tries
  · simp only [hgt, if_true]
    refine ⟨by rw [hT]; exact wrapInt32_succ tries, tries + 1, ⟨le_refl _, Or.inr ⟨by omega, rfl, ?_⟩, ?_⟩, ?_⟩
    · intro i hi
      have := hall i (by omega)
      dsimp only at hi ⊢
      omega
    · intro i h1 h2
      omega
    · simp [clocksSince]
  · simp only [hgt, if_false]
    refine ⟨by rw [hT]; exact wrapInt32_succ tries, j, ⟨by omega, hb, ?_⟩, ?_⟩
    · intro i h1 h2
      by_cases h3 : i = tries
      · rw [h3]
        dsimp only
        omega
      · exact ha i h1 (by omega)
    · simp only [clocksSince] at hsum ⊢
      rw [Finset.sum_Ico_succ_top hj, hsum]
      exact Nat.mod_add_mod _ _ _

/-- When the loop exits, the invariant holds for the variables and the number of
tries it gives, and the loop condition is false. -/
theorem timingLoop_exit (rdtsc : Nat → Nat) (fuel tries : Nat) (s r : TimingState) (m : Nat)
    (hinv : TimingInv rdtsc tries s) (h : timingLoop rdtsc fuel tries s = some (r, m)) :
    TimingInv rdtsc m r ∧ timingContinues r = false := by
  induction fuel generalizing tries s with
  | zero => simp [timingLoop] at h
  | succ fuel ih =>
    unfold timingLoop at h
    by_cases hc : timingContinues s = true
    · simp only [hc, if_true] at h
      exact ih _ _ (timingInv_step rdtsc tries s hinv) h
    · simp only [hc, if_false, Option.some.injEq, Prod.mk.injEq, Bool.false_eq_true] at h
      obtain ⟨rfl, rfl⟩ := h
      exact ⟨hinv, by simpa using hc⟩

/-- C10: whenever the timing loop of a batch exits (the buffer was allocated and
the loop came to its end within the fuel given), for every stream of clock
readings: at least 10 tries were made; `BestClocks` is the minimum of the clock
deltas of all tries made, and it is the value stored in the entry's `Clocks`; on
exit `TryIndex` is at least 10 and the clocks accumulated since the last strict
improvement of the minimum, which `ClocksSinceLastDrop` holds modulo `2^64`, have
reached `MaxClocksWithoutDrop`, which is 500000000. -/
theorem timing_loop_reports_minimum (rdtsc : Nat → Nat) (fuel : Nat) (ThisBest b : best_result)
    (s : TimingState) (tries : Nat)
    (h : timeBatch rdtsc fuel true ThisBest = some (b, some (s, tries))) :
    10 ≤ tries ∧
    (∀ i, i < tries → s.BestClocks ≤ clockDelta rdtsc i) ∧
    (∃ i, i < tries ∧ s.BestClocks = clockDelta rdtsc i) ∧
    b = { Size := ThisBest.Size, Clocks := s.BestClocks } ∧
    10 ≤ s.TryIndex ∧
    MaxClocksWithoutDrop ≤ s.ClocksSinceLastDrop ∧
    MaxClocksWithoutDrop = 500000000 ∧
    ∃ j, LastDropAt rdtsc tries s.BestClocks j ∧
      s.ClocksSinceLastDrop = clocksSince rdtsc j tries % 2 ^ 64 ∧
      MaxClocksWithoutDrop ≤ clocksSince rdtsc j tries := by
  unfold timeBatch at h
  simp only [if_true] at h
  cases hl : timingLoop rdtsc fuel 0 TimingState.initial with
  | none => simp [hl] at h
  | some r =>
    obtain ⟨s2, n2⟩ := r
    simp only [hl, Option.some.injEq, Prod.mk.injEq] at h
    obtain ⟨hb, hs, hn⟩ := h
    subst hs
    subst hn
    obtain ⟨⟨hT, j, hdrop, hsum⟩, hexit⟩ :=
      timingLoop_exit rdtsc fuel 0 TimingState.initial s2 n2 (timingInv_initial rdtsc) hl
    have hall := LastDropAt.le_all rdtsc n2 s2.BestClocks j hdrop
    simp only [timingContinues, Bool.or_eq_false_iff, decide_eq_false_iff_not, not_lt] at hexit
    obtain ⟨hTry, hAcc⟩ := hexit
    have hn10 : 10 ≤ n2 := by
      rw [hT] at hTry
      unfold wrapInt32 at hTry
      omega
    have hmin : ∃ i, i < n2 ∧ s2.BestClocks = clockDelta rdtsc i := by
      obtain ⟨_, hcase, _⟩ := hdrop
      rcases hcase with ⟨_, hmax⟩ | ⟨jpos, hj, _⟩
      · refine ⟨0, by omega, ?_⟩
        have h1 := hall 0 (by omega)
        have h2 := clockDelta_le rdtsc 0
        omega
      · exact ⟨j - 1, by omega, hj.symm⟩
    have hle : s2.BestClocks ≤ U64Max := by
      obtain ⟨i, _, hi⟩ := hmin
      rw [hi]
      exact clockDelta_le rdtsc i
    refine ⟨hn10, hall, hmin, ?_, hTry, hAcc, by decide, j, hdrop, hsum, ?_⟩
    · rw [← hb]
      unfold recordBest
      by_cases hgt : U64Max > s2.BestClocks
      · simp [hgt]
      · have : s2.BestClocks = U64Max := by omega
        simp [this]
    · have := Nat.mod_le (clocksSince rdtsc j n2) (2 ^ 64)
      omega

/-- C10 at a concrete run: every try measures 300000000 clocks; the loop exits
after 10 tries with that minimum. -/
theorem timing_loop_reports_minimum_witness :
    timeBatch sampleClock 20 true { Size := 64, Clocks := 0 } =
      some ({ Size := 64, Clocks := 300000000 },
        some ({ ClocksSinceLastDrop := 2700000000, BestClocks := 300000000, TryIndex := 10 },
          10)) ∧
    10 ≤ 10 ∧
    (∀ i, i < 10 → 300000000 ≤ clockDelta sampleClock i) ∧
    (∃ i, i < 10 ∧ 300000000 = clockDelta sampleClock i) ∧
    ({ Size := 64, Clocks := 300000000 } : best_result) =
      { Size := 64, Clocks := 300000000 } ∧
    (10 : Int) ≤ 10 ∧
    MaxClocksWithoutDrop ≤ 2700000000 ∧
    MaxClocksWithoutDrop = 500000000 ∧
    ∃ j, LastDropAt sampleClock 10 300000000 j ∧
      2700000000 = clocksSince sampleClock j 10 % 2 ^ 64 ∧
      MaxClocksWithoutDrop ≤ clocksSince sampleClock j 10 :=
  ⟨by decide, timing_loop_reports_minimum sampleClock 20 { Size := 64, Clocks := 0 }
    { Size := 64, Clocks := 300000000 }
    { ClocksSinceLastDrop := 2700000000, BestClocks := 300000000, TryIndex := 10 } 10
    (by decide)⟩

/-- C9, as stated, fails for the Emscripten build: its table has 36 entries, the
largest is `2^29`, and no entry is `2^33`. -/
theorem size_table_emscripten_largest :
    ∃ sizes : List Nat, (initSizes true).map sizesOf = some sizes ∧
      sizes.length = 36 ∧ sizes.getLast? = some (2 ^ 29) ∧
      (∀ i : Fin 36, sizes.getD i.val 0 ≤ 2 ^ 29) ∧ 2 ^ 33 ∉ sizes :=
  ⟨[1, 7, 8, 15, 16, 31, 32, 63, 64, 127, 128, 255, 256, 511, 512, 1023] ++
      (List.range 20).map (fun j => 2 ^ (j + 10)), by decide, by decide, by decide, by decide,
      by decide⟩

end Meow
